import Mathlib

/-!
# Verification of the bizscope record pipeline

Shallow embedding of `src/bizscope.py`: the record parser
(`process_uploaded_file` / `parse_company_data`), the filter stage
(`apply_filters`, with the `rapidfuzz` partial-ratio similarity and the
pandas `str.contains` regex search modelled for the pattern fragment the
claims exercise), and the enrichment batch
(`fetch_company_data` / `enrich_company_data_async`, with the pandas
label-addressed `DataFrame.at` write-back modelled explicitly).

Python strings are modelled as `List Char`; a pandas `DataFrame` of company
records is modelled as a list of (index label, row) pairs, since the source
addresses rows through `.at[label, column]`; a missing cell (pandas `NaN`,
or a column that was never assigned) is `Option.none`.
-/

deriving instance DecidableEq for Except

set_option maxRecDepth 8000

namespace BizScope

/-- Python strings, modelled as lists of characters. -/
abbrev Str := List Char

/-- Shorthand turning a Lean string literal into the `Str` model. -/
def str (s : String) : Str := s.toList

/-- The whitespace characters removed by Python's `str.strip()`
(ASCII fragment: space, tab, newline, carriage return, vertical tab, form feed). -/
def isPySpace (c : Char) : Bool :=
  c = ' ' || c = '\t' || c = '\n' || c = '\r' || c = Char.ofNat 11 || c = Char.ofNat 12

/-- Python `s.strip()`: drop leading and trailing whitespace. -/
def pyStrip (s : Str) : Str :=
  ((s.dropWhile isPySpace).reverse.dropWhile isPySpace).reverse

/-- Prepend a character onto the first piece of a split result. -/
def consHead (c : Char) : List Str → List Str
  | [] => [[c]]
  | b :: bs => (c :: b) :: bs

/-- Python `s.split("\n")`: split on every newline. -/
def splitLines : Str → List Str
  | [] => [[]]
  | c :: r => if c = '\n' then [] :: splitLines r else consHead c (splitLines r)

/-- Python `s.split("\n\n")`: split on each non-overlapping occurrence of two
consecutive newlines, scanning left to right. -/
def splitBlocks : Str → List Str
  | [] => [[]]
  | [c] => [[c]]
  | c :: d :: r =>
    if c = '\n' && d = '\n' then [] :: splitBlocks r
    else consHead c (splitBlocks (d :: r))

/-- Join a list of lines with newlines (inverse of `splitLines`). -/
def joinLines : List Str → Str
  | [] => []
  | [l] => l
  | l :: l2 :: ls => l ++ '\n' :: joinLines (l2 :: ls)

/-- Prepend a line onto the first group of a grouping result. -/
def groupCons (l : Str) : List (List Str) → List (List Str)
  | [] => [[l]]
  | g :: gs => (l :: g) :: gs

/-- Group a list of lines at each empty (blank) line, keeping empty groups:
the line-level analogue of splitting the text on blank lines. -/
def lineGroups : List Str → List (List Str)
  | [] => [[]]
  | l :: ls => if l.isEmpty then [] :: lineGroups ls else groupCons l (lineGroups ls)

/-- No two adjacent lines are both empty. -/
def noAdjEmpty : List Str → Bool
  | [] => true
  | [_] => true
  | a :: b :: r => !(a.isEmpty && b.isEmpty) && noAdjEmpty (b :: r)

/-- The line list describes well-separated blocks: non-empty, first and last
lines non-blank, and consecutive blocks separated by exactly one blank line. -/
def wellSeparated (L : List Str) : Bool :=
  !(L.headD []).isEmpty && !(L.getLastD []).isEmpty && noAdjEmpty L

/-- The non-empty blocks of the uploaded text: group the lines of the
whitespace-stripped text at blank lines and keep the non-empty groups
(the spec's blocks, "already stripped of pure whitespace"). -/
def nonEmptyBlocksOf (t : Str) : List (List Str) :=
  (lineGroups (splitLines (pyStrip t))).filter (fun g => !g.isEmpty)

/-- The sentinel `"Unknown"` used for absent fields. -/
def unknown : Str := str "Unknown"

/-- One row of the company `DataFrame`.  Cells are `Option Str`: `none` is a
pandas `NaN` / never-assigned column, `some s` a string cell.  `name_match`
holds the transient fuzzy-match score column (a float, modelled as `ℚ`). -/
structure Row where
  name : Option Str
  employees : Option Str
  category : Option Str
  location : Option Str
  id : Option Str
  status : Option Str
  contact : Option Str
  registration_number : Option Str
  name_match : Option ℚ
deriving DecidableEq

/-- Python list indexing `l[i]` with negative-index support; raises
(`Except.error`) when the index is out of range. -/
def pyIdx (l : List α) (i : Int) : Except Unit α :=
  let j : Int := if i < 0 then i + l.length else i
  if 0 ≤ j then
    match l.get? j.toNat with
    | some a => Except.ok a
    | none => Except.error ()
  else Except.error ()

/-- `parse_company_data` from the source: strip the block, split into lines,
extract the fields by fixed position (guards exactly as in the source; the
`contact` test reads `lines[-1]` unconditionally).  Any out-of-range list
index raises, as in Python. -/
def parse_company_data (block : Str) : Except Unit Row :=
  let lines := splitLines (pyStrip block)
  Except.bind (if 0 < lines.length then pyIdx lines 0 else Except.ok unknown) (fun name =>
  Except.bind (if 1 < lines.length then pyIdx lines 1 else Except.ok unknown) (fun employees =>
  Except.bind (if 2 < lines.length then pyIdx lines 2 else Except.ok unknown) (fun category =>
  Except.bind (if 3 < lines.length then pyIdx lines 3 else Except.ok unknown) (fun location =>
  Except.bind (if 4 < lines.length then pyIdx lines 4 else Except.ok unknown) (fun ident =>
  Except.bind (if 6 < lines.length then pyIdx lines (-2) else Except.ok unknown) (fun status =>
  Except.bind (pyIdx lines (-1)) (fun lastLine =>
  Except.ok
    { name := some name, employees := some employees, category := some category,
      location := some location, id := some ident, status := some status,
      contact := some (if '@' ∈ lastLine then lastLine else unknown),
      registration_number := none, name_match := none })))))))

/-- The value `parse_company_data` computes (it never raises, proved in
`parse_company_data_eq`): total functional form of the parser. -/
def parseF (block : Str) : Row :=
  let lines := splitLines (pyStrip block)
  let lastLine := lines.getLastD []
  { name := some (if 0 < lines.length then lines.getD 0 [] else unknown),
    employees := some (if 1 < lines.length then lines.getD 1 [] else unknown),
    category := some (if 2 < lines.length then lines.getD 2 [] else unknown),
    location := some (if 3 < lines.length then lines.getD 3 [] else unknown),
    id := some (if 4 < lines.length then lines.getD 4 [] else unknown),
    status := some (if 6 < lines.length then lines.getD (lines.length - 2) [] else unknown),
    contact := some (if '@' ∈ lastLine then lastLine else unknown),
    registration_number := none, name_match := none }

/-- A company `DataFrame`: rows tagged with their pandas index label. -/
abbrev DF := List (Nat × Row)

/-- `process_uploaded_file` from the source: strip the decoded text, split on
`"\n\n"`, parse each block, and build a `DataFrame` with the default
positional index `0, 1, 2, …`. -/
def process_uploaded_file (t : Str) : Except Unit DF := do
  let rows ← (splitBlocks (pyStrip t)).mapM parse_company_data
  Except.ok (List.enum rows)

/-! ## The filter stage -/

/-- Length of a longest common subsequence, fueled so that it is structural
(the fuel `a.length + b.length` always suffices: every call consumes fuel 1
and total length at least 1). -/
def lcsLenFuel : Nat → Str → Str → Nat
  | 0, _, _ => 0
  | Nat.succ _, [], _ => 0
  | Nat.succ _, _ :: _, [] => 0
  | Nat.succ n, a :: as, b :: bs =>
    if a = b then lcsLenFuel n as bs + 1
    else max (lcsLenFuel n (a :: as) bs) (lcsLenFuel n as (b :: bs))

/-- Length of a longest common subsequence of two strings. -/
def lcsLen (a b : Str) : Nat := lcsLenFuel (a.length + b.length) a b

/-- `rapidfuzz` `fuzz.ratio`: the normalized Indel similarity on a 0–100
scale, `200·lcs/(|a|+|b|)` (100 when both strings are empty). -/
def ratioQ (a b : Str) : ℚ :=
  if a.length + b.length = 0 then 100
  else Rat.divInt (200 * (lcsLen a b : Int)) ((a.length : Int) + (b.length : Int))

/-- Maximum of a list of scores (scores are non-negative). -/
def maxQ (l : List ℚ) : ℚ := l.foldl max 0

/-- `rapidfuzz` `fuzz.partial_ratio` (the short-needle algorithm): the best
`fuzz.ratio` over every alignment of the shorter string (the needle, length
`m`) in the longer string (length `n`) — the proper prefixes of the longer
string shorter than the needle (`s2[:i]`, `1 ≤ i ≤ m-1`), the needle-length
windows (`s2[i:i+m]`, `0 ≤ i < n-m`), and the suffixes of at most needle
length (`s2[i:]`, `n-m ≤ i ≤ n-1`), so partial-overlap edge alignments are
scored too.  The character-set skip in the implementation never lowers the
maximum (a skipped window's ratio is bounded by a scored one's), so it is
omitted.  0 when exactly one string is empty, 100 when both are. -/
def fuzzPartialRatio (a b : Str) : ℚ :=
  let s := if a.length ≤ b.length then a else b
  let l := if a.length ≤ b.length then b else a
  let m := s.length
  let n := l.length
  if m = 0 then (if n = 0 then 100 else 0)
  else
    let prefs := (List.range (m - 1)).map (fun i => l.take (i + 1))
    let mids := (List.range (n - m)).map (fun i => (l.drop i).take m)
    let sufs := (List.range m).map (fun i => l.drop (n - m + i))
    maxQ ((prefs ++ mids ++ sufs).map (ratioQ s))

/-- ASCII lower-casing, as applied by case-insensitive matching. -/
def lowerChar (c : Char) : Char :=
  if 65 ≤ c.toNat ∧ c.toNat ≤ 90 then Char.ofNat (c.toNat + 32) else c

/-- Lower-case a string. -/
def lowerStr (s : Str) : Str := s.map lowerChar

/-- The characters Python `re` treats as metacharacters:
`.` `^` `$` `*` `+` `?` left/right brace, `[` `]` backslash, `|` `(` `)`
(given here by their ASCII codes). -/
def isReMeta (c : Char) : Bool :=
  c.toNat ∈ [46, 94, 36, 42, 43, 63, 123, 125, 91, 93, 92, 124, 40, 41]

/-- Match a regex pattern from the fragment {literal character, `.` wildcard}
against the start of a string, consuming one character per pattern symbol.
Modelled fragment of Python `re`: this development only ever reasons about
patterns inside the fragment — metacharacter-free filter strings (where the
fragment is plain literal matching, exactly as `re`) and the single-`.`
pattern of the C8 counterexample (where `.` matches any one character,
exactly as `re`). -/
def dotMatchAt : Str → Str → Bool
  | [], _ => true
  | _ :: _, [] => false
  | c :: p, d :: s => (c = '.' || c = d) && dotMatchAt p s

/-- Python `re.search` for the {literal, `.`} fragment: the pattern matches at
some position of the string (see `dotMatchAt` for the fragment's scope). -/
def reSearch (p s : Str) : Bool :=
  (List.range (s.length + 1)).any (fun i => dotMatchAt p (s.drop i))

/-- pandas `Series.str.contains(pat, case=False, na=False)` on one cell: the
default `regex=True` performs a case-insensitive `re.search` of the pattern;
a `NaN` cell yields `False` (`na=False`).  Faithful to pandas for patterns in
the {literal, `.`} fragment, the only ones this development reasons about. -/
def strContainsCF (pat : Str) (cell : Option Str) : Bool :=
  match cell with
  | some s => reSearch (lowerStr pat) (lowerStr s)
  | none => false

/-- Case-insensitive substring containment — the spec's reading of the
location filter ("contains the filter string as a case-insensitive
substring"), used to compare against the source's regex search. -/
def containsCI (pat s : Str) : Bool :=
  (List.range ((lowerStr s).length + 1)).any
    (fun i => (lowerStr pat).isPrefixOf ((lowerStr s).drop i))

/-- Assign the `name_match` score column of one row, as
`filtered_df['name_match'] = filtered_df['name'].apply(lambda x:
fuzz.partial_ratio(name_filter, x))` does (row cells are strings on every
collection reaching the filter; the scored name is the row's name cell). -/
def setNM (nf : Str) (r : Row) : Row :=
  { r with name_match := some (fuzzPartialRatio nf (r.name.getD [])) }

/-- The row-selection predicate `name_match > 80` (pandas comparison with a
`NaN` score is `False`). -/
def nmKeep (r : Row) : Bool :=
  match r.name_match with
  | some v => decide (80 < v)
  | none => false

/-- `apply_filters` from the source.  `filtered_df` starts as an alias of the
input frame, so the `name_match` column assignment mutates the caller's
frame; each row selection then rebinds `filtered_df` to a fresh frame.
Returns (final state of the input frame, returned filtered frame). -/
def apply_filters (df : DF) (name_filter location_filter : Str) : DF × DF :=
  let p :=
    if name_filter ≠ [] then
      let shared := df.map (fun q => (q.1, setNM name_filter q.2))
      (shared, shared.filter (fun q => nmKeep q.2))
    else (df, df)
  let final :=
    if location_filter ≠ [] then
      p.2.filter (fun q => strContainsCF location_filter q.2.location)
    else p.2
  (p.1, final)

/-! ## The enrichment batch -/

/-- Outcome of one HTTP GET against the registry API:
`ok body` is an HTTP 200 whose JSON body optionally carries
`results.company` with its optional `company_number` / `current_status`
fields; `err code` is a non-200 response; `exn` a network-level
`aiohttp.ClientError` (after the retry policy is exhausted). -/
inductive HttpResult where
  | ok (body : Option (Option Str × Option Str))
  | err (code : Nat)
  | exn

/-- The dictionary `fetch_company_data` returns on success. -/
structure FetchData where
  company_number : Str
  status : Str
deriving DecidableEq

/-- `fetch_company_data` from the source, as a function of the response: on
HTTP 200 with `results.company` present it returns the extracted dictionary
(fields defaulting to `"Unknown"`); in every other case — 200 without
`results.company`, non-200 (a warning is shown), or a client error (an error
is shown) — it returns the empty dictionary (`none`).  The pacing sleep and
the UI messages have no effect on the returned data. -/
def fetch_company_data : HttpResult → Option FetchData
  | HttpResult.ok (some (cn, cs)) =>
      some { company_number := cn.getD unknown, status := cs.getD unknown }
  | HttpResult.ok none => none
  | HttpResult.err _ => none
  | HttpResult.exn => none

/-- A fresh all-`NaN` row, as pandas creates on setting-with-enlargement. -/
def emptyRow : Row :=
  { name := none, employees := none, category := none, location := none,
    id := none, status := none, contact := none, registration_number := none,
    name_match := none }

/-- pandas `df.at[label, col] = value` write: update the row carrying the
label if present; otherwise append a new all-`NaN` row with that label
(setting with enlargement) and set the cell there. -/
def atSet (df : DF) (label : Nat) (f : Row → Row) : DF :=
  if (df.lookup label).isSome then
    df.map (fun q => if q.1 = label then (q.1, f q.2) else q)
  else df ++ [(label, f emptyRow)]

/-- pandas `df.at[label, 'status']` read (the label is always present at the
point this is read in the merge loop). -/
def atGetStatus (df : DF) (label : Nat) : Option Str :=
  match df.lookup label with
  | some r => r.status
  | none => none

/-- One iteration of the merge loop at `enumerate` position `i`:
`df.at[i,'registration_number'] = data.get('company_number','Unknown')` then
`df.at[i,'status'] = data.get('status', df.at[i,'status'])` — both writes
address the row **labelled** `i`. -/
def mergeOne (df : DF) (i : Nat) (data : Option FetchData) : DF :=
  let regVal : Str := match data with | some d => d.company_number | none => unknown
  let df1 := atSet df i (fun r => { r with registration_number := some regVal })
  let prior := atGetStatus df1 i
  let stVal : Option Str := match data with | some d => some d.status | none => prior
  atSet df1 i (fun r => { r with status := stVal })

/-- `enrich_company_data_async` from the source: one fetch task per row in
`iterrows` (positional) order; `asyncio.gather` returns the results in task
order regardless of completion order (`net k` is the settled outcome of the
`k`-th task); then the merge loop writes result `i` through `df.at[i, ·]`. -/
def enrich_company_data_async (df : DF) (net : Nat → HttpResult) : DF :=
  let enriched_data := (List.range df.length).map (fun k => fetch_company_data (net k))
  (enriched_data.enum).foldl (fun acc kd => mergeOne acc kd.1 kd.2) df

/-! ## Parser lemmas -/

lemma consHead_ne_nil (c : Char) (L : List Str) : consHead c L ≠ [] := by
  cases L <;> simp [consHead]

lemma splitLines_ne_nil (s : Str) : splitLines s ≠ [] := by
  cases s with
  | nil => simp [splitLines]
  | cons c r =>
    simp only [splitLines]
    split
    · simp
    · exact consHead_ne_nil _ _

lemma splitBlocks_ne_nil (s : Str) : splitBlocks s ≠ [] := by
  match s with
  | [] => simp [splitBlocks]
  | [c] => simp [splitBlocks]
  | c :: d :: r =>
    simp only [splitBlocks]
    split
    · simp
    · exact consHead_ne_nil _ _

lemma pyIdx_natOk (l : List Str) (i : Int) (k : Nat) (hik : i = (k : Int))
    (h : k < l.length) : pyIdx l i = Except.ok (l.getD k []) := by
  subst hik
  have h0 : ¬ ((k : Int) < 0) := by omega
  have ht : ((k : Int)).toNat = k := by omega
  simp only [pyIdx, if_neg h0, ht]
  rw [if_pos (by omega : (0 : Int) ≤ (k : Int))]
  rw [List.get?_eq_get h]
  simp [List.getD_eq_getElem?_getD, List.getElem?_eq_getElem h, List.get_eq_getElem]

lemma pyIdx_neg1 (l : List Str) (hne : l ≠ []) :
    pyIdx l (-1) = Except.ok (l.getLastD []) := by
  have hlen : 0 < l.length := List.length_pos.mpr hne
  have h0 : ((-1 : Int) < 0) := by omega
  have ht : ((-1 : Int) + l.length).toNat = l.length - 1 := by omega
  have hlt : l.length - 1 < l.length := by omega
  simp only [pyIdx, if_pos h0, ht]
  rw [if_pos (by omega : (0 : Int) ≤ (-1 : Int) + l.length)]
  rw [List.get?_eq_get hlt]
  have hD : l.getLastD [] = l.getD (l.length - 1) [] := by
    cases l with
    | nil => simp at hne
    | cons a as =>
      simp [List.getLastD_eq_getLast?, List.getLast?_eq_getElem?,
        List.getD_eq_getElem?_getD]
  rw [hD]
  simp [List.getD_eq_getElem?_getD, List.getElem?_eq_getElem hlt, List.get_eq_getElem]

lemma pyIdx_neg2 (l : List Str) (h : 6 < l.length) :
    pyIdx l (-2) = Except.ok (l.getD (l.length - 2) []) := by
  have h0 : ((-2 : Int) < 0) := by omega
  have ht : ((-2 : Int) + l.length).toNat = l.length - 2 := by omega
  have hlt : l.length - 2 < l.length := by omega
  simp only [pyIdx, if_pos h0, ht]
  rw [if_pos (by omega : (0 : Int) ≤ (-2 : Int) + l.length)]
  rw [List.get?_eq_get hlt]
  simp [List.getD_eq_getElem?_getD, List.getElem?_eq_getElem hlt, List.get_eq_getElem]

lemma parseStep (lines : List Str) (k : Nat) :
    (if k < lines.length then pyIdx lines (k : Int) else Except.ok unknown)
      = Except.ok (if k < lines.length then lines.getD k [] else unknown) := by
  by_cases h : k < lines.length
  · rw [if_pos h, if_pos h, pyIdx_natOk lines _ k rfl h]
  · rw [if_neg h, if_neg h]

lemma parseStepStatus (lines : List Str) :
    (if 6 < lines.length then pyIdx lines (-2) else Except.ok unknown)
      = Except.ok (if 6 < lines.length then lines.getD (lines.length - 2) [] else unknown) := by
  by_cases h : 6 < lines.length
  · rw [if_pos h, if_pos h, pyIdx_neg2 lines h]
  · rw [if_neg h, if_neg h]

/-- The faithful parser never raises and computes `parseF`. -/
theorem parse_company_data_eq (block : Str) :
    parse_company_data block = Except.ok (parseF block) := by
  have hne : splitLines (pyStrip block) ≠ [] := splitLines_ne_nil _
  simp only [parse_company_data]
  rw [parseStepStatus, pyIdx_neg1 _ hne]
  rw [show ((0 : Int) = ((0 : Nat) : Int)) from rfl]
  rw [show ((1 : Int) = ((1 : Nat) : Int)) from rfl]
  rw [show ((2 : Int) = ((2 : Nat) : Int)) from rfl]
  rw [show ((3 : Int) = ((3 : Nat) : Int)) from rfl]
  rw [show ((4 : Int) = ((4 : Nat) : Int)) from rfl]
  rw [parseStep, parseStep, parseStep, parseStep, parseStep]
  rfl

/-! ## Claims about the parser fields (C5, C6, C9) -/

/-- Claim C5: for every parsed block, the status field is the block's
second-to-last line exactly when the block has strictly more than 6 lines,
and is the sentinel `"Unknown"` for every block of 6 or fewer lines
regardless of content; in particular the 8-line example block yields
status `"Active"`. -/
theorem status_second_to_last_threshold :
    (∀ block : Str, ∃ r, parse_company_data block = Except.ok r ∧
        r.status = some (if 6 < (splitLines (pyStrip block)).length
          then (splitLines (pyStrip block)).getD ((splitLines (pyStrip block)).length - 2) []
          else unknown))
    ∧ (parseF (str "Acme\n50\nTech\nNYC\nid1\nx\nActive\nbad-last-line")).status
        = some (str "Active") := by
  constructor
  · intro block
    exact ⟨parseF block, parse_company_data_eq block, rfl⟩
  · decide

/-- Claim C9: for every parsed block, the contact field is the block's last
line exactly when that line contains the character `'@'`, and the sentinel
`"Unknown"` otherwise. -/
theorem contact_requires_at_sign :
    (∀ block : Str, ∃ r, parse_company_data block = Except.ok r ∧
        r.contact = some (if '@' ∈ (splitLines (pyStrip block)).getLastD []
          then (splitLines (pyStrip block)).getLastD [] else unknown))
    ∧ (parseF (str "Acme\n50\ncontact@acme.com")).contact = some (str "contact@acme.com")
    ∧ (parseF (str "Acme\n50\nTech\nNYC\nid1\nmail.example.org")).contact = some unknown := by
  refine ⟨fun block => ⟨parseF block, parse_company_data_eq block, rfl⟩, by decide, by decide⟩

/-- Claim C6: parsing a block never raises — for every block the parser
returns a record — and every line index missing from the block (including
every block of fewer than 5 lines) yields the sentinel `"Unknown"` for the
corresponding field. -/
theorem parse_never_raises_defaults (block : Str) :
    ∃ r, parse_company_data block = Except.ok r ∧
      ((splitLines (pyStrip block)).length ≤ 1 → r.employees = some unknown) ∧
      ((splitLines (pyStrip block)).length ≤ 2 → r.category = some unknown) ∧
      ((splitLines (pyStrip block)).length ≤ 3 → r.location = some unknown) ∧
      ((splitLines (pyStrip block)).length ≤ 4 → r.id = some unknown) ∧
      ((splitLines (pyStrip block)).length ≤ 6 → r.status = some unknown) := by
  refine ⟨parseF block, parse_company_data_eq block, ?_, ?_, ?_, ?_, ?_⟩ <;>
    intro h <;> simp only [parseF] <;> rw [if_neg (by omega)]

/-- Witness for C6 at the concrete one-line block `"Acme"`. -/
theorem parse_never_raises_defaults_witness :
    ∃ r, parse_company_data (str "Acme") = Except.ok r ∧
      ((splitLines (pyStrip (str "Acme"))).length ≤ 1 → r.employees = some unknown) ∧
      ((splitLines (pyStrip (str "Acme"))).length ≤ 2 → r.category = some unknown) ∧
      ((splitLines (pyStrip (str "Acme"))).length ≤ 3 → r.location = some unknown) ∧
      ((splitLines (pyStrip (str "Acme"))).length ≤ 4 → r.id = some unknown) ∧
      ((splitLines (pyStrip (str "Acme"))).length ≤ 6 → r.status = some unknown) :=
  parse_never_raises_defaults (str "Acme")

/-! ## Filter lemmas -/

lemma list_map_id_on {α : Type} (l : List α) (f : α → α) (h : ∀ x ∈ l, f x = x) :
    l.map f = l := by
  induction l with
  | nil => rfl
  | cons a as ih =>
    simp only [List.map_cons, h a (List.mem_cons_self a as)]
    rw [ih (fun x hx => h x (List.mem_cons_of_mem a hx))]

lemma list_any_congr {α : Type} (l : List α) (f g : α → Bool) (h : ∀ x ∈ l, f x = g x) :
    l.any f = l.any g := by
  induction l with
  | nil => rfl
  | cons a as ih =>
    simp only [List.any_cons, h a (List.mem_cons_self a as)]
    rw [ih (fun x hx => h x (List.mem_cons_of_mem a hx))]

lemma ofNat_shift_ne_dot (c : Char) (h1 : 65 ≤ c.toNat) (h2 : c.toNat ≤ 90) :
    Char.ofNat (c.toNat + 32) ≠ '.' := by
  interval_cases h3 : c.toNat <;> simp_all

lemma lowerChar_eq_dot (c : Char) (h : lowerChar c = '.') : c = '.' := by
  by_cases hr : 65 ≤ c.toNat ∧ c.toNat ≤ 90
  · rw [lowerChar, if_pos hr] at h
    exact absurd h (ofNat_shift_ne_dot c hr.1 hr.2)
  · rwa [lowerChar, if_neg hr] at h

lemma lower_no_dot (p : Str) (h : '.' ∉ p) : '.' ∉ lowerStr p := by
  intro hm
  obtain ⟨c, hc, hlc⟩ := List.mem_map.mp hm
  exact h (lowerChar_eq_dot c hlc ▸ hc)

lemma lowerStr_ne_nil (p : Str) (h : p ≠ []) : lowerStr p ≠ [] := by
  cases p with
  | nil => exact absurd rfl h
  | cons c r => simp [lowerStr]

lemma dotMatchAt_no_dot (p : Str) (hd : '.' ∉ p) (t : Str) :
    dotMatchAt p t = p.isPrefixOf t := by
  induction p generalizing t with
  | nil => cases t <;> rfl
  | cons c p' ih =>
    cases t with
    | nil => rfl
    | cons d t' =>
      have hc : c ≠ '.' := fun h => hd (h ▸ List.mem_cons_self c p')
      have hp' : '.' ∉ p' := fun h => hd (List.mem_cons_of_mem c h)
      simp only [dotMatchAt, List.isPrefixOf]
      rw [ih hp' t']
      by_cases h : c = d <;> simp [h, hc]

lemma reSearch_eq_containsCI (p s : Str) (hd : '.' ∉ p) :
    reSearch (lowerStr p) (lowerStr s) = containsCI p s := by
  unfold reSearch containsCI
  exact list_any_congr _ _ _
    (fun i _ => dotMatchAt_no_dot (lowerStr p) (lower_no_dot p hd) _)

lemma strContainsCF_none (p : Str) : strContainsCF p none = false := rfl

lemma strContainsCF_empty_cell (p : Str) (hp : p ≠ []) :
    strContainsCF p (some []) = false := by
  have h1 : lowerStr p ≠ [] := lowerStr_ne_nil p hp
  rw [show strContainsCF p (some []) = reSearch (lowerStr p) [] from rfl]
  cases h2 : lowerStr p with
  | nil => exact absurd h2 h1
  | cons c q =>
    simp [reSearch, dotMatchAt]

/-! ## Claims about the name filter (C7) -/

/-- Claim C7: with a non-empty name filter (and no location filter), the
filter stage keeps exactly the records whose name scores strictly above 80
under the fuzzy partial-ratio similarity against the filter string (each kept
row carrying its score in the `name_match` column); `"Acme"` scores above 80
against `"Acme Corp"` and at most 80 against `"Globex"`. -/
theorem name_filter_fuzzy_threshold (df : DF) (nf : Str) (hnf : nf ≠ [])
    (_hname : ∀ p ∈ df, (p.2).name ≠ none) :
    (∀ l r, ((l, r) ∈ (apply_filters df nf []).2 ↔
        ∃ r0, (l, r0) ∈ df ∧ r = setNM nf r0 ∧
          80 < fuzzPartialRatio nf (r0.name.getD [])))
    ∧ 80 < fuzzPartialRatio (str "Acme") (str "Acme Corp")
    ∧ ¬ 80 < fuzzPartialRatio (str "Acme") (str "Globex") := by
  refine ⟨?_, by decide, by decide⟩
  intro l r
  have h2 : (apply_filters df nf []).2
      = (df.map (fun q => (q.1, setNM nf q.2))).filter (fun q => nmKeep q.2) := by
    simp [apply_filters, hnf]
  rw [h2]
  simp only [List.mem_filter, List.mem_map]
  constructor
  · rintro ⟨⟨⟨a, b⟩, hmem, heq⟩, hkeep⟩
    simp only [Prod.mk.injEq] at heq
    obtain ⟨rfl, rfl⟩ := heq
    refine ⟨b, hmem, rfl, ?_⟩
    simpa [nmKeep, setNM] using hkeep
  · rintro ⟨r0, hmem, rfl, hgt⟩
    exact ⟨⟨(l, r0), hmem, rfl⟩, by simp [nmKeep, setNM, hgt]⟩

/-- The example row for the filter claims: name `"Acme Corp"`, location
`"NYC"`, no other data, no scratch column. -/
def rowAcmeW : Row :=
  { emptyRow with name := some (str "Acme Corp"), location := some (str "NYC") }

/-- Witness for C7: on the one-row frame with name `"Acme Corp"` and filter
`"Acme"`, the scored row is kept. -/
theorem name_filter_fuzzy_threshold_witness :
    ((0 : Nat), setNM (str "Acme") rowAcmeW)
      ∈ (apply_filters [(0, rowAcmeW)] (str "Acme") []).2 :=
  ((name_filter_fuzzy_threshold [(0, rowAcmeW)] (str "Acme") (by decide)
      (by decide)).1 0 (setNM (str "Acme") rowAcmeW)).mpr
    ⟨rowAcmeW, by simp, rfl, by decide⟩

/-! ## Claims about the location filter (C8) -/

/-- Counterexample row for C8: location `"NYC"`. -/
def rowNYC : Row := { emptyRow with location := some (str "NYC") }

/-- Counterexample to claim C8 as stated: with location filter `"."` the
row with location `"NYC"` is kept (pandas `str.contains` treats the filter
as a regular expression and `.` matches any character), although `"NYC"`
does not contain the filter string `"."` as a (case-insensitive) substring. -/
theorem location_filter_counterexample :
    (apply_filters [(0, rowNYC)] [] (str ".")).2 = [(0, rowNYC)]
    ∧ containsCI (str ".") (str "NYC") = false := by decide

/-- Claim C8 (amended): the location filter string is interpreted as a
regular expression (`re.search`, case-insensitive); for filter strings free
of regex metacharacters (no character of `. ^ $ * + ? [ ] | ( )`, braces or
backslash — `re.search` of such a pattern is plain substring search) this is
exactly case-insensitive substring containment, so the filter keeps exactly
the records whose location contains the filter string case-insensitively;
records with a missing (`NaN`) or empty location are excluded, and an empty
filter passes all records unchanged. -/
theorem location_filter_amended (df : DF) (lf : Str) (hlf : lf ≠ [])
    (hmeta : ∀ c ∈ lf, isReMeta c = false) :
    (∀ p, p ∈ (apply_filters df [] lf).2 ↔
        (p ∈ df ∧ ∃ s, (p.2).location = some s ∧ containsCI lf s = true))
    ∧ (∀ p, p ∈ (apply_filters df [] lf).2 →
        (p.2).location ≠ none ∧ (p.2).location ≠ some [])
    ∧ (apply_filters df [] []).2 = df := by
  have hdot : '.' ∉ lf := fun hm => absurd (hmeta '.' hm) (by decide)
  have h2 : (apply_filters df [] lf).2
      = df.filter (fun q => strContainsCF lf (q.2).location) := by
    simp [apply_filters, hlf]
  have hcf : ∀ c : Option Str,
      strContainsCF lf c = true ↔ ∃ s, c = some s ∧ containsCI lf s = true := by
    intro c
    cases c with
    | none => simp [strContainsCF]
    | some s =>
      rw [show strContainsCF lf (some s) = reSearch (lowerStr lf) (lowerStr s) from rfl]
      rw [reSearch_eq_containsCI lf s hdot]
      simp
  refine ⟨?_, ?_, by simp [apply_filters]⟩
  · intro p
    rw [h2, List.mem_filter, hcf]
  · intro p hp
    rw [h2, List.mem_filter] at hp
    constructor
    · intro hn
      rw [hn, strContainsCF_none] at hp
      exact absurd hp.2 (by simp)
    · intro hn
      rw [hn, strContainsCF_empty_cell lf hlf] at hp
      exact absurd hp.2 (by simp)

/-- Witness for C8 at the one-row frame with location `"NYC"` and filter
`"ny"`: the row is kept, and kept exactly by substring containment. -/
theorem location_filter_amended_witness :
    ((0 : Nat), rowNYC) ∈ (apply_filters [(0, rowNYC)] [] (str "ny")).2 :=
  ((location_filter_amended [(0, rowNYC)] (str "ny") (by decide) (by decide)).1
      (0, rowNYC)).mpr ⟨by simp, str "NYC", rfl, by decide⟩

/-! ## Claim C3: the scratch column and the aliased input frame -/

/-- Claim C3 fails on the code: filtering the one-row frame (name
`"Acme Corp"`) by name filter `"Acme"` adds the scratch `name_match` column
both to the caller's frame (`filtered_df` starts as an alias, so the column
assignment mutates the input) and to the returned output, which carries
`name_match = 100` downstream. -/
theorem scratch_column_leak :
    (apply_filters [(0, rowAcmeW)] (str "Acme") []).1
        = [(0, { rowAcmeW with name_match := some 100 })]
    ∧ (apply_filters [(0, rowAcmeW)] (str "Acme") []).2
        = [(0, { rowAcmeW with name_match := some 100 })]
    ∧ rowAcmeW.name_match = none := by decide

/-! ## Claim C10: idempotence of the filter -/

/-- `setNM` only rewrites the `name_match` column, so re-applying it is the
identity. -/
lemma setNM_idem (nf : Str) (r : Row) : setNM nf (setNM nf r) = setNM nf r := rfl

/-- Claim C10: applying the filter to its own output with the same filter
strings returns that output unchanged. -/
theorem filter_idempotent (df : DF) (nf lf : Str)
    (_hname : ∀ p ∈ df, (p.2).name ≠ none) :
    (apply_filters (apply_filters df nf lf).2 nf lf).2 = (apply_filters df nf lf).2 := by
  by_cases hnf : nf = []
  · subst hnf
    by_cases hlf : lf = []
    · subst hlf
      simp [apply_filters]
    · have h2 : ∀ e : DF, (apply_filters e [] lf).2
          = e.filter (fun q => strContainsCF lf (q.2).location) := by
        intro e; simp [apply_filters, hlf]
      rw [h2, h2]
      exact List.filter_eq_self.mpr (fun a ha => (List.mem_filter.mp ha).2)
  · by_cases hlf : lf = []
    · subst hlf
      have h2 : ∀ e : DF, (apply_filters e nf []).2
          = (e.map (fun q => (q.1, setNM nf q.2))).filter (fun q => nmKeep q.2) := by
        intro e; simp [apply_filters, hnf]
      rw [h2, h2]
      have hid : ((df.map (fun q => (q.1, setNM nf q.2))).filter (fun q => nmKeep q.2)).map
          (fun q => (q.1, setNM nf q.2))
          = (df.map (fun q => (q.1, setNM nf q.2))).filter (fun q => nmKeep q.2) := by
        apply list_map_id_on
        intro p hp
        obtain ⟨q, hq, rfl⟩ := List.mem_map.mp (List.mem_of_mem_filter hp)
        simp [setNM_idem]
      rw [hid]
      exact List.filter_eq_self.mpr (fun a ha => (List.mem_filter.mp ha).2)
    · have h2 : ∀ e : DF, (apply_filters e nf lf).2
          = ((e.map (fun q => (q.1, setNM nf q.2))).filter (fun q => nmKeep q.2)).filter
              (fun q => strContainsCF lf (q.2).location) := by
        intro e; simp [apply_filters, hnf, hlf]
      rw [h2, h2]
      set out := ((df.map (fun q => (q.1, setNM nf q.2))).filter (fun q => nmKeep q.2)).filter
          (fun q => strContainsCF lf (q.2).location) with hout
      have hmem1 : ∀ p ∈ out,
          p ∈ (df.map (fun q => (q.1, setNM nf q.2))).filter (fun q => nmKeep q.2) :=
        fun p hp => List.mem_of_mem_filter hp
      have hid : out.map (fun q => (q.1, setNM nf q.2)) = out := by
        apply list_map_id_on
        intro p hp
        obtain ⟨q, hq, rfl⟩ := List.mem_map.mp (List.mem_of_mem_filter (hmem1 p hp))
        simp [setNM_idem]
      rw [hid]
      have hg : out.filter (fun q => nmKeep q.2) = out :=
        List.filter_eq_self.mpr (fun a ha => (List.mem_filter.mp (hmem1 a ha)).2)
      rw [hg]
      exact List.filter_eq_self.mpr (fun a ha => (List.mem_filter.mp ha).2)

/-- Witness for C10 at a concrete one-row frame and both filters non-empty. -/
theorem filter_idempotent_witness :
    (apply_filters (apply_filters [(0, rowAcmeW)] (str "Acme") (str "ny")).2
        (str "Acme") (str "ny")).2
      = (apply_filters [(0, rowAcmeW)] (str "Acme") (str "ny")).2 :=
  filter_idempotent [(0, rowAcmeW)] (str "Acme") (str "ny") (by decide)

/-! ## Claims about the enrichment batch (C1, C4)

The program hands the **filtered** frame to the enrichment batch
(`enrich_company_data(filtered_df, …)` in `main`), and filtering preserves
the original index labels, so the labels of the enriched frame are in
general not `0, 1, …, n-1`.  The merge loop addresses rows by **label**
(`df.at[i, …]`) while the gathered results are indexed by **position**
(`enumerate`), which breaks the claimed positional merge on any frame with
label gaps. -/

/-- First record of the two-row frame with an index-label gap. -/
def rowA : Row := { emptyRow with name := some (str "A"), status := some (str "sA") }

/-- Second record of the two-row frame with an index-label gap. -/
def rowB : Row := { emptyRow with name := some (str "B"), status := some (str "sB") }

/-- The filtered frame: two records whose pandas labels are 0 and 2 (as after
a filter dropped the row labelled 1). -/
def dfGap : DF := [(0, rowA), (2, rowB)]

/-- Network oracle for C1: both fetches succeed, with distinct payloads. -/
def netBoth : Nat → HttpResult := fun k =>
  if k = 0 then HttpResult.ok (some (some (str "N0"), some (str "S0")))
  else HttpResult.ok (some (some (str "N1"), some (str "S1")))

/-- Network oracle for C4: the first fetch returns HTTP 500, the second
succeeds. -/
def netOneFail : Nat → HttpResult := fun k =>
  if k = 0 then HttpResult.err 500
  else HttpResult.ok (some (some (str "N1"), some (str "S1")))

/-- The first record after receiving the first fetched result. -/
def rowA0 : Row :=
  { rowA with registration_number := some (str "N0"), status := some (str "S0") }

/-- The phantom row the merge creates at label 1, carrying the second result. -/
def phantom1 : Row :=
  { emptyRow with registration_number := some (str "N1"), status := some (str "S1") }

/-- Claim C1 fails on the code: on the two-record frame labelled `[0, 2]`
with both fetches succeeding, the second gathered result is **not** merged
into the second record — the write `df.at[1, …]` creates a phantom row
labelled 1 carrying that result, and the second record (labelled 2) is left
untouched, its `registration_number` never set. -/
theorem enrich_label_merge_bug :
    enrich_company_data_async dfGap netBoth = [(0, rowA0), (2, rowB), (1, phantom1)]
    ∧ (enrich_company_data_async dfGap netBoth).lookup 2 = some rowB
    ∧ rowB.registration_number = none := by decide

/-- Claim C4 fails on the code: on the two-record frame labelled `[0, 2]`
(one fetch failing with HTTP 500, the other succeeding) the batch returns
**three** rows, not exactly two — the label-addressed merge appends a
phantom row.  (No exception is raised, and the failed record itself does get
`registration_number = "Unknown"` with its status preserved.) -/
theorem enrich_batch_size_bug :
    dfGap.length = 2
    ∧ (enrich_company_data_async dfGap netOneFail).length = 3
    ∧ (enrich_company_data_async dfGap netOneFail).lookup 0
        = some { rowA with registration_number := some unknown } := by decide

/-- On a frame whose labels are the positional `0, …, n-1` (as produced by
`process_uploaded_file` without filtering), the batch does behave as claim C4
describes: here with labels `[0, 1]`, the failed record keeps its status and
gets `registration_number = "Unknown"`, the successful one carries the
fetched values, and the row count is preserved. -/
theorem enrich_contiguous_labels_ok :
    enrich_company_data_async [(0, rowA), (1, rowB)] netOneFail
      = [(0, { rowA with registration_number := some unknown }),
         (1, { rowB with registration_number := some (str "N1"), status := some (str "S1") })]
    := by decide

/-! ## Block structure of the uploaded text (C2) -/

lemma joinLines_cons (l : Str) (L : List Str) (h : L ≠ []) :
    joinLines (l :: L) = l ++ '\n' :: joinLines L := by
  cases L with
  | nil => exact absurd rfl h
  | cons x xs => rfl

lemma join_consHead (c : Char) (M : List Str) (h : M ≠ []) :
    joinLines (consHead c M) = c :: joinLines M := by
  cases M with
  | nil => exact absurd rfl h
  | cons m ms =>
    cases ms with
    | nil => rfl
    | cons x xs => rfl

lemma join_splitLines (s : Str) : joinLines (splitLines s) = s := by
  induction s with
  | nil => rfl
  | cons c r ih =>
    by_cases hc : c = '\n'
    · subst hc
      have hs : splitLines ('\n' :: r) = [] :: splitLines r := by simp [splitLines]
      rw [hs, joinLines_cons [] _ (splitLines_ne_nil r), ih]
      rfl
    · have hs : splitLines (c :: r) = consHead c (splitLines r) := by
        simp [splitLines, hc]
      rw [hs, join_consHead c _ (splitLines_ne_nil r), ih]

lemma splitLines_no_newline (s : Str) : ∀ l ∈ splitLines s, '\n' ∉ l := by
  induction s with
  | nil =>
    intro l hl
    simp [splitLines] at hl
    simp [hl]
  | cons c r ih =>
    intro l hl
    by_cases hc : c = '\n'
    · subst hc
      have hs : splitLines ('\n' :: r) = [] :: splitLines r := by simp [splitLines]
      rw [hs] at hl
      rcases List.mem_cons.mp hl with rfl | hl
      · simp
      · exact ih l hl
    · simp only [splitLines, if_neg hc] at hl
      cases hM : splitLines r with
      | nil => exact absurd hM (splitLines_ne_nil r)
      | cons m ms =>
        rw [hM] at hl
        simp only [consHead, List.mem_cons] at hl
        rcases hl with rfl | hl
        · intro hmem
          rcases List.mem_cons.mp hmem with rfl | hmem
          · exact hc rfl
          · exact ih m (hM ▸ List.mem_cons_self m ms) hmem
        · exact ih l (hM ▸ List.mem_cons_of_mem m hl)

lemma splitBlocks_append (l r : Str) (hl : '\n' ∉ l) :
    splitBlocks (l ++ r)
      = (l ++ (splitBlocks r).headD []) :: (splitBlocks r).tail := by
  induction l with
  | nil =>
    rcases hB : splitBlocks r with _ | ⟨b, bs⟩
    · exact absurd hB (splitBlocks_ne_nil r)
    · simp [hB]
  | cons c l' ih =>
    have hc : c ≠ '\n' := fun h => hl (h ▸ List.mem_cons_self c l')
    have hl' : '\n' ∉ l' := fun h => hl (List.mem_cons_of_mem c h)
    rcases hlr : l' ++ r with _ | ⟨d, w⟩
    · obtain ⟨hl0, hr0⟩ := List.append_eq_nil.mp hlr
      subst hl0; subst hr0
      simp [splitBlocks]
    · show splitBlocks (c :: (l' ++ r)) = _
      rw [hlr]
      have : splitBlocks (c :: d :: w)
          = consHead c (splitBlocks (d :: w)) := by
        simp [splitBlocks, hc]
      rw [this, ← hlr, ih hl']
      rfl

lemma splitBlocks_two_newlines (r : Str) :
    splitBlocks ('\n' :: '\n' :: r) = [] :: splitBlocks r := by
  simp [splitBlocks]

lemma splitBlocks_newline_cons (c : Char) (r : Str) (hc : c ≠ '\n') :
    splitBlocks ('\n' :: c :: r) = consHead '\n' (splitBlocks (c :: r)) := by
  simp [splitBlocks, hc]

lemma groupCons_ne_nil (l : Str) (G : List (List Str)) : groupCons l G ≠ [] := by
  cases G <;> simp [groupCons]

lemma isEmpty_false_ne_nil {l : Str} (h : l.isEmpty = false) : l ≠ [] := by
  cases l <;> simp_all

lemma lineGroups_ne_nil (L : List Str) : lineGroups L ≠ [] := by
  cases L with
  | nil => simp [lineGroups]
  | cons l ls =>
    simp only [lineGroups]
    split
    · simp
    · exact groupCons_ne_nil _ _

/-- Main alignment: for a well-separated line list, splitting the joined
text on `"\n\n"` yields exactly the joined line groups, and no group is
empty.  (Fueled induction: the blank-separator case descends two steps.) -/
lemma blocks_align_aux : ∀ (n : Nat) (L : List Str), L.length ≤ n →
    (∀ l ∈ L, '\n' ∉ l) → wellSeparated L = true →
    splitBlocks (joinLines L) = (lineGroups L).map joinLines
      ∧ ∀ g ∈ lineGroups L, g ≠ [] := by
  intro n
  induction n with
  | zero =>
    intro L hlen _ hws
    have : L = [] := List.length_eq_zero.mp (Nat.le_zero.mp hlen)
    subst this
    simp [wellSeparated] at hws
  | succ n ih =>
    intro L hlen hnl hws
    match L with
    | [] => simp [wellSeparated] at hws
    | [l1] =>
      have h1 : l1.isEmpty = false := by
        simp only [wellSeparated, List.headD_cons, Bool.and_eq_true,
          Bool.not_eq_true'] at hws
        exact hws.1.1
      have h1' : l1 ≠ [] := isEmpty_false_ne_nil h1
      constructor
      · have hj : joinLines [l1] = l1 ++ [] := by simp [joinLines]
        rw [hj, splitBlocks_append l1 [] (hnl l1 (List.mem_cons_self _ _))]
        simp [splitBlocks, lineGroups, h1, groupCons, joinLines]
      · intro g hg
        simp only [lineGroups, h1, Bool.false_eq_true, if_false, groupCons] at hg
        simp only [List.mem_singleton] at hg
        subst hg
        simp
    | l1 :: l2 :: L2 =>
      have hws' := hws
      simp only [wellSeparated, List.headD_cons, Bool.and_eq_true,
        Bool.not_eq_true'] at hws'
      obtain ⟨⟨h1, hlast⟩, hadj⟩ := hws'
      have h1' : l1 ≠ [] := isEmpty_false_ne_nil h1
      have hnl1 : '\n' ∉ l1 := hnl l1 (List.mem_cons_self _ _)
      have hadj12 : noAdjEmpty (l2 :: L2) = true := by
        simp only [noAdjEmpty, Bool.and_eq_true] at hadj
        exact hadj.2
      by_cases hl2 : l2 = []
      · -- a blank separator line: descend past it
        subst hl2
        match L2 with
        | [] =>
          exfalso
          simp [List.getLastD_cons, List.getLastD] at hlast
        | l3 :: L3 =>
          have hadj3 : l3.isEmpty = false ∧ noAdjEmpty (l3 :: L3) = true := by
            have h := hadj12
            simp only [noAdjEmpty, List.isEmpty_nil, Bool.true_and, Bool.and_eq_true,
              Bool.not_eq_true'] at h
            exact h
          have hws3 : wellSeparated (l3 :: L3) = true := by
            simp only [wellSeparated, List.headD_cons, Bool.and_eq_true,
          Bool.not_eq_true']
            refine ⟨⟨hadj3.1, ?_⟩, hadj3.2⟩
            simpa [List.getLastD_cons] using hlast
          have hlen3 : (l3 :: L3).length ≤ n := by
            simp only [List.length_cons] at hlen ⊢
            omega
          have hnl3 : ∀ l ∈ l3 :: L3, '\n' ∉ l := fun l hm =>
            hnl l (List.mem_cons_of_mem _ (List.mem_cons_of_mem _ hm))
          obtain ⟨ihs, ihg⟩ := ih (l3 :: L3) hlen3 hnl3 hws3
          have hjoin : joinLines (l1 :: [] :: l3 :: L3)
              = l1 ++ '\n' :: '\n' :: joinLines (l3 :: L3) := by
            rw [joinLines_cons l1 _ (by simp), joinLines_cons [] _ (by simp)]
            rfl
          have hgr : lineGroups (l1 :: [] :: l3 :: L3)
              = [l1] :: lineGroups (l3 :: L3) := by
            simp [lineGroups, h1, groupCons]
          constructor
          · rw [hjoin, splitBlocks_append l1 _ hnl1, splitBlocks_two_newlines, ihs, hgr]
            simp [joinLines]
          · intro g hg
            rw [hgr] at hg
            rcases List.mem_cons.mp hg with rfl | hg
            · simp
            · exact ihg g hg
      · -- no blank separator: the next line extends the current group
        have h2 : l2.isEmpty = false := by
          cases l2 with
          | nil => exact absurd rfl hl2
          | cons a as => rfl
        have hws2 : wellSeparated (l2 :: L2) = true := by
          simp only [wellSeparated, List.headD_cons, Bool.and_eq_true,
            Bool.not_eq_true']
          refine ⟨⟨h2, ?_⟩, hadj12⟩
          simpa [List.getLastD_cons] using hlast
        have hlen2 : (l2 :: L2).length ≤ n := by
          simp only [List.length_cons] at hlen ⊢
          omega
        have hnl2 : ∀ l ∈ l2 :: L2, '\n' ∉ l := fun l hm =>
          hnl l (List.mem_cons_of_mem _ hm)
        obtain ⟨ihs, ihg⟩ := ih (l2 :: L2) hlen2 hnl2 hws2
        obtain ⟨c, l2', rfl⟩ : ∃ c l2', l2 = c :: l2' := by
          cases l2 with
          | nil => exact absurd rfl hl2
          | cons c l2' => exact ⟨c, l2', rfl⟩
        have hc : c ≠ '\n' :=
          fun h => hnl (c :: l2') (List.mem_cons_of_mem _ (List.mem_cons_self _ _))
            (h ▸ List.mem_cons_self _ _)
        obtain ⟨w, hw⟩ : ∃ w, joinLines ((c :: l2') :: L2) = c :: w := by
          cases L2 with
          | nil => exact ⟨l2', rfl⟩
          | cons x xs => exact ⟨l2' ++ '\n' :: joinLines (x :: xs), rfl⟩
        have hjoin : joinLines (l1 :: (c :: l2') :: L2) = l1 ++ '\n' :: c :: w := by
          rw [joinLines_cons l1 _ (by simp), hw]
        rcases hG : lineGroups ((c :: l2') :: L2) with _ | ⟨g, gs⟩
        · exact absurd hG (lineGroups_ne_nil _)
        · have hgne : g ≠ [] := ihg g (hG ▸ List.mem_cons_self _ _)
          have hgr : lineGroups (l1 :: (c :: l2') :: L2) = (l1 :: g) :: gs := by
            have hstep : lineGroups (l1 :: (c :: l2') :: L2)
                = groupCons l1 (lineGroups ((c :: l2') :: L2)) := by
              show (if l1.isEmpty then [] :: lineGroups ((c :: l2') :: L2)
                    else groupCons l1 (lineGroups ((c :: l2') :: L2))) = _
              rw [if_neg (by simp [h1])]
            rw [hstep, hG]
            rfl
          constructor
          · rw [hjoin, splitBlocks_append l1 _ hnl1, splitBlocks_newline_cons c w hc,
              ← hw, ihs, hG, hgr]
            simp only [List.map_cons, consHead, List.headD_cons, List.tail_cons]
            rw [joinLines_cons l1 g hgne]
          · intro g' hg'
            rw [hgr] at hg'
            rcases List.mem_cons.mp hg' with rfl | hg'
            · simp
            · exact ihg g' (hG ▸ List.mem_cons_of_mem g hg')

lemma mapM_parse (bs : List Str) :
    bs.mapM parse_company_data = Except.ok (bs.map parseF) := by
  induction bs with
  | nil => rfl
  | cons b bs ih =>
    rw [List.mapM_cons, parse_company_data_eq b, ih]
    rfl

/-- Claim C2 (amended): for every uploaded text whose whitespace-stripped
content is non-empty and in which consecutive blocks are separated by exactly
one blank line (no runs of two or more blank lines — the `wellSeparated`
hypothesis), the parser produces exactly one record per non-empty block, in
block order, each record being the parse of its own block.  (Leading and
trailing whitespace is stripped before splitting, so a leading or trailing
blank region never yields a record.) -/
theorem parser_one_record_per_block (t : Str)
    (h : wellSeparated (splitLines (pyStrip t)) = true) :
    process_uploaded_file t
      = Except.ok (List.enum ((nonEmptyBlocksOf t).map (fun b => parseF (joinLines b)))) := by
  have hnl : ∀ l ∈ splitLines (pyStrip t), '\n' ∉ l := splitLines_no_newline _
  obtain ⟨hsplit, hgroups⟩ := blocks_align_aux (splitLines (pyStrip t)).length
    (splitLines (pyStrip t)) (le_refl _) hnl h
  rw [join_splitLines] at hsplit
  have hfil : nonEmptyBlocksOf t = lineGroups (splitLines (pyStrip t)) := by
    unfold nonEmptyBlocksOf
    exact List.filter_eq_self.mpr (fun g hg => by
      have := hgroups g hg
      cases g with
      | nil => exact absurd rfl this
      | cons x xs => rfl)
  show ((splitBlocks (pyStrip t)).mapM parse_company_data).bind
      (fun rows => Except.ok (List.enum rows)) = _
  rw [hsplit, mapM_parse, hfil]
  show Except.ok (List.enum ((lineGroups (splitLines (pyStrip t))).map joinLines |>.map parseF)) = _
  rw [List.map_map]
  rfl

/-- Witness for C2 at the concrete two-block upload
`"Acme\n50\n\nGlobex\n10"`. -/
theorem parser_one_record_per_block_witness :
    wellSeparated (splitLines (pyStrip (str "Acme\n50\n\nGlobex\n10"))) = true
    ∧ process_uploaded_file (str "Acme\n50\n\nGlobex\n10")
        = Except.ok (List.enum ((nonEmptyBlocksOf (str "Acme\n50\n\nGlobex\n10")).map
            (fun b => parseF (joinLines b)))) :=
  ⟨by decide, parser_one_record_per_block (str "Acme\n50\n\nGlobex\n10") (by decide)⟩

/-- Counterexample to claim C2 as stated: the upload `"A\n\n\n\nB"` has two
non-empty blocks (`"A"` and `"B"`, separated by a run of three blank lines)
but produces **three** records — splitting on the literal `"\n\n"` leaves an
empty middle piece that is parsed into a bogus record. -/
theorem parser_one_record_per_block_counterexample :
    (process_uploaded_file (str "A\n\n\n\nB")).map List.length = Except.ok 3
    ∧ (nonEmptyBlocksOf (str "A\n\n\n\nB")).length = 2
    ∧ (process_uploaded_file (str "A\n\n\n\nB")).map List.length
        ≠ Except.ok (nonEmptyBlocksOf (str "A\n\n\n\nB")).length := by decide

end BizScope
